import Mathlib

/-!
Verification of `earnings_watchlist.py`, a batch job that fetches earnings
calendar records for two weeks, filters them by market capitalization,
resolves each surviving symbol's listing exchange, groups by earnings date,
formats a TradingView watchlist string and writes it to a file.

Pure transformations (`process_json`, `process_list`, `format_watchlist`,
`get_weeks`, the exchange mapping) are embedded directly.  The effectful
parts (HTTP fetch, per-symbol lookup, directory creation, file write) are
embedded as functions of the results of their external calls: a transport
or lookup step is a value of an `Except` type, `Except.error` standing for
a raised exception.  Dates are modelled as day numbers with day 0 a Monday,
so `weekday d = d % 7` matches Python's `date.weekday()` (Monday = 0).
-/

namespace EarningsWatchlist

/-- A raw earnings record from the calendar endpoint: `symbol` (string),
`earningsDate` (ISO date string), `marketCap` (non-negative number, may be
absent, modelled as `Option Nat`). -/
structure EarningsRecord where
  symbol : String
  earningsDate : String
  marketCap : Option Nat
deriving DecidableEq, Repr

/-- A `{symbol, earningsDate}` projection produced by the cap filter. -/
structure FilteredTicker where
  symbol : String
  earningsDate : String
deriving DecidableEq, Repr

/-- A filtered ticker enriched with a mapped exchange code. -/
structure ResolvedTicker where
  symbol : String
  earningsDate : String
  exchange : String
deriving DecidableEq, Repr

/-- A `{symbol, exchange}` pair stored under a date key by the grouper. -/
structure SymbolExchange where
  symbol : String
  exchange : String
deriving DecidableEq, Repr

/-- The fixed exchange-identifier conversion table `EXCHANGE_CONVERSION`
from the source (lines 21-27). -/
def EXCHANGE_CONVERSION : List (String × String) :=
  [("NYQ", "NYSE"), ("NMS", "NASDAQ"), ("NGM", "NASDAQ"),
   ("OTC", "OTC"), ("AMEX", "ASE")]

/-- Python `EXCHANGE_CONVERSION.get(key, 'Unknown')`. -/
def exchange_conversion_get (key : String) : String :=
  match EXCHANGE_CONVERSION.find? (fun p => p.1 = key) with
  | some p => p.2
  | none => "Unknown"

/-- Line 79 of the source applied to the optional `exchange` field of a
successfully fetched info dict:
`EXCHANGE_CONVERSION.get(info.get('exchange', 'Unknown'), 'Unknown')`. -/
def resolve_exchange (info_exchange : Option String) : String :=
  exchange_conversion_get (info_exchange.getD "Unknown")

/-- `process_json` (source lines 65-70): keep records whose
`marketCap` (default 0 when absent) is strictly greater than
10000000000, projecting each to `{symbol, earningsDate}`. -/
def process_json : List EarningsRecord → List FilteredTicker
  | [] => []
  | t :: ts =>
    if 10000000000 < t.marketCap.getD 0 then
      ⟨t.symbol, t.earningsDate⟩ :: process_json ts
    else
      process_json ts

theorem process_json_nil : process_json [] = [] := rfl

theorem process_json_cons (t : EarningsRecord) (ts : List EarningsRecord) :
    process_json (t :: ts) =
      if 10000000000 < t.marketCap.getD 0 then
        ⟨t.symbol, t.earningsDate⟩ :: process_json ts
      else process_json ts := rfl

/-- Claim C1: `process_json` outputs exactly the records whose `marketCap`
(taken as 0 when absent) strictly exceeds 10,000,000,000, each projected to
`{symbol, earningsDate}`, in input order; a record with a missing
`marketCap` is excluded. -/
theorem cap_filter_correct :
    (∀ l : List EarningsRecord,
      process_json l =
        (l.filter (fun t => 10000000000 < t.marketCap.getD 0)).map
          (fun t => ⟨t.symbol, t.earningsDate⟩)) ∧
    (∀ s d : String,
      process_json [{ symbol := s, earningsDate := d, marketCap := none }] = []) := by
  constructor
  · intro l
    induction l with
    | nil => rfl
    | cons t ts ih =>
      by_cases h : 10000000000 < t.marketCap.getD 0
      · simp [process_json_cons, List.filter_cons, h, ih]
      · simp [process_json_cons, List.filter_cons, h, ih]
  · intro s d
    simp [process_json]

/-- Claim C3: the exchange mapping follows the fixed table
NYQ→NYSE, NMS→NASDAQ, NGM→NASDAQ, OTC→OTC, AMEX→ASE, and every other
identifier, as well as a missing one, maps to "Unknown". -/
theorem exchange_mapping_correct :
    resolve_exchange (some "NYQ") = "NYSE" ∧
    resolve_exchange (some "NMS") = "NASDAQ" ∧
    resolve_exchange (some "NGM") = "NASDAQ" ∧
    resolve_exchange (some "OTC") = "OTC" ∧
    resolve_exchange (some "AMEX") = "ASE" ∧
    (∀ s : String, s ∉ ["NYQ", "NMS", "NGM", "OTC", "AMEX"] →
      resolve_exchange (some s) = "Unknown") ∧
    resolve_exchange none = "Unknown" := by
  refine ⟨rfl, rfl, rfl, rfl, rfl, ?_, rfl⟩
  intro s hs
  simp only [List.mem_cons, List.not_mem_nil, or_false, not_or] at hs
  obtain ⟨h1, h2, h3, h4, h5⟩ := hs
  simp [resolve_exchange, exchange_conversion_get, EXCHANGE_CONVERSION,
    List.find?, Ne.symm h1, Ne.symm h2, Ne.symm h3, Ne.symm h4, Ne.symm h5]

/-- Witness for C3 at the concrete identifier "FOO". -/
theorem exchange_mapping_correct_witness :
    resolve_exchange (some "FOO") = "Unknown" := by
  have h := exchange_mapping_correct
  exact h.2.2.2.2.2.1 "FOO" (by decide)

/-- The result of the per-symbol metadata lookup `yf.Ticker(sym).info`
followed by reading its optional `exchange` field: `Except.error ()` when
the lookup raises (any exception class, lines 82-85 catch them all),
`Except.ok info` when it succeeds, `info` being the optional string value
of the info dict's `exchange` key. -/
abbrev LookupResult := Except Unit (Option String)

/-- `get_exchange` (source lines 72-86), value-level model: for each
ticker, perform the lookup; if it raises, skip the ticker (logged only);
otherwise append the ticker extended with the mapped exchange. -/
def get_exchange (lookup : String → LookupResult) :
    List FilteredTicker → List ResolvedTicker
  | [] => []
  | t :: ts =>
    match lookup t.symbol with
    | Except.error _ => get_exchange lookup ts
    | Except.ok info =>
        ⟨t.symbol, t.earningsDate, resolve_exchange info⟩ :: get_exchange lookup ts

/-- True iff the lookup did not raise. -/
def lookup_succeeded : LookupResult → Bool
  | Except.ok _ => true
  | Except.error _ => false

/-- The info payload of a successful lookup (`none` for a failed one). -/
def lookup_info : LookupResult → Option String
  | Except.ok i => i
  | Except.error _ => none

/-- Claim C2 counterexample: a ticker whose lookup succeeds but whose info
dict is missing the `exchange` field ("missing exchange data") is NOT
dropped from the output; it is included with exchange "Unknown". -/
theorem exchange_resolver_missing_data_kept :
    get_exchange (fun _ => Except.ok none) [⟨"AAPL", "2024-06-10"⟩] =
      [⟨"AAPL", "2024-06-10", "Unknown"⟩] ∧
    get_exchange (fun _ => Except.ok none) [⟨"AAPL", "2024-06-10"⟩] ≠ [] := by
  constructor
  · rfl
  · intro h
    simp [get_exchange, resolve_exchange, exchange_conversion_get,
      EXCHANGE_CONVERSION, List.find?] at h

/-- Claim C2 (amended): a ticker is dropped iff its lookup raises; a
successful lookup always yields an output ticker, with exchange computed by
the mapping step from the looked-up identifier (so missing exchange data in
a successful lookup yields "Unknown", it does not drop the ticker), and
successfully looked-up tickers appear in input order. -/
theorem exchange_resolver_amended (lookup : String → LookupResult)
    (ts : List FilteredTicker) :
    get_exchange lookup ts =
      (ts.filter (fun t => lookup_succeeded (lookup t.symbol))).map
        (fun t => ⟨t.symbol, t.earningsDate,
          resolve_exchange (lookup_info (lookup t.symbol))⟩) := by
  induction ts with
  | nil => rfl
  | cons t ts ih =>
    cases h : lookup t.symbol with
    | error e =>
      simp [get_exchange, h, List.filter_cons, lookup_succeeded, ih]
    | ok info =>
      simp [get_exchange, h, List.filter_cons, lookup_succeeded, lookup_info, ih]

/-- An HTTP response from the earnings-calendar endpoint: a status code and
the parsed JSON body (a sequence of raw records, per the interface). -/
structure HttpResponse where
  status : Nat
  body : List EarningsRecord

/-- Python `response.raise_for_status()`: raises an `HTTPError` (a
`RequestException`) iff the status code is in [400, 600). -/
def raise_for_status (r : HttpResponse) : Except Unit Unit :=
  if 400 ≤ r.status ∧ r.status < 600 then Except.error () else Except.ok ()

/-- `get_earnings` (source lines 29-44) as a function of the transport
result: `Except.error ()` models `session.get` raising a
`RequestException`; on a response, `raise_for_status` failures are caught
and yield `[]`; otherwise the parsed body is returned.  The function is
total: no failure propagates to the caller. -/
def get_earnings (transport : Except Unit HttpResponse) : List EarningsRecord :=
  match transport with
  | Except.error _ => []
  | Except.ok r =>
    match raise_for_status r with
    | Except.error _ => []
    | Except.ok _ => r.body

/-- Claim C4: `get_earnings` returns the parsed body on success and the
empty sequence on any transport failure or non-success status, never
raising (it is a total function of the transport result). -/
theorem get_earnings_spec :
    (∀ e : Unit, get_earnings (Except.error e) = []) ∧
    (∀ r : HttpResponse, 400 ≤ r.status → r.status < 600 →
      get_earnings (Except.ok r) = []) ∧
    (∀ r : HttpResponse, r.status < 400 →
      get_earnings (Except.ok r) = r.body) := by
  refine ⟨fun e => rfl, fun r h1 h2 => ?_, fun r h => ?_⟩
  · simp [get_earnings, raise_for_status, h1, h2]
  · simp [get_earnings, raise_for_status, Nat.not_le.mpr h]

/-- Witness for C4: a transport error, a 404 response and a 200 response
with one record. -/
theorem get_earnings_spec_witness :
    get_earnings (Except.error ()) = [] ∧
    get_earnings (Except.ok ⟨404, [⟨"AAPL", "2024-06-10", some 3000000000000⟩]⟩) = [] ∧
    get_earnings (Except.ok ⟨200, [⟨"AAPL", "2024-06-10", some 3000000000000⟩]⟩) =
      [⟨"AAPL", "2024-06-10", some 3000000000000⟩] :=
  ⟨get_earnings_spec.1 (),
   get_earnings_spec.2.1 ⟨404, [⟨"AAPL", "2024-06-10", some 3000000000000⟩]⟩
     (by decide) (by decide),
   get_earnings_spec.2.2 ⟨200, [⟨"AAPL", "2024-06-10", some 3000000000000⟩]⟩
     (by decide)⟩

/-- Python `date.weekday()` for a date modelled as a day number whose
day 0 is a Monday: Monday = 0 .. Sunday = 6. -/
def weekday (d : Nat) : Nat := d % 7

/-- `get_weeks` (source lines 46-63): `((start_of_week, end_of_week),
(start_of_next_week, end_of_next_week))` with
`start_of_week = today - timedelta(days=today.weekday())`,
each end 4 days after its start, next start 7 days after the first. -/
def get_weeks (today : Nat) : (Nat × Nat) × (Nat × Nat) :=
  let start_of_week := today - weekday today
  let end_of_week := start_of_week + 4
  let start_of_next_week := start_of_week + 7
  let end_of_next_week := start_of_next_week + 4
  ((start_of_week, end_of_week), (start_of_next_week, end_of_next_week))

/-- Claim C7: the first start is today minus its weekday offset (and is a
Monday), each end is its start plus 4 days (a Friday), the second start is
exactly 7 days after the first; for a Wednesday, the current week runs from
the preceding Monday (today - 2) to that Friday (today + 2). -/
theorem week_calculator_correct (today : Nat) :
    (get_weeks today).1.1 = today - weekday today ∧
    weekday (get_weeks today).1.1 = 0 ∧
    (get_weeks today).1.2 = (get_weeks today).1.1 + 4 ∧
    weekday (get_weeks today).1.2 = 4 ∧
    (get_weeks today).2.1 = (get_weeks today).1.1 + 7 ∧
    (get_weeks today).2.2 = (get_weeks today).2.1 + 4 ∧
    (weekday today = 2 →
      (get_weeks today).1.1 = today - 2 ∧ (get_weeks today).1.2 = today + 2) := by
  have hstart : today - weekday today = 7 * (today / 7) := by
    unfold weekday
    omega
  refine ⟨rfl, ?_, rfl, ?_, rfl, rfl, ?_⟩
  · show weekday (today - weekday today) = 0
    rw [hstart]
    simp [weekday, Nat.mul_mod_right]
  · show weekday (today - weekday today + 4) = 4
    rw [hstart]
    simp [weekday, Nat.add_comm, Nat.add_mul_mod_self_left]
  · intro h
    have h2 : today % 7 = 2 := h
    have hle : 2 ≤ today := by omega
    refine ⟨by simp [get_weeks, weekday, h2], ?_⟩
    show today - weekday today + 4 = today + 2
    simp only [weekday, h2]
    omega

/-- Witness for C7 at `today = 9` (a Wednesday: 9 % 7 = 2). -/
theorem week_calculator_correct_witness :
    (get_weeks 9).1.1 = 7 ∧ (get_weeks 9).1.2 = 11 ∧
    (get_weeks 9).2.1 = 14 ∧ (get_weeks 9).2.2 = 18 := by
  have h := week_calculator_correct 9
  have hw : weekday 9 = 2 := by decide
  obtain ⟨h1, _, h3, _, h5, h6, h7⟩ := h
  obtain ⟨ha, hb⟩ := h7 hw
  refine ⟨by omega, by omega, by omega, by omega⟩

/-- The grouping dictionary built by `process_list`, modelled as an
association list in insertion order (Python dicts preserve insertion
order). -/
abbrev EarningsByDate := List (String × List SymbolExchange)

/-- Python `earnings_dict.setdefault(date, []).append(symbol_exchange)`:
append to the list of the first entry with the given key, or add a new
`(date, [se])` entry at the end when the key is absent. -/
def setdefault_append (m : EarningsByDate) (d : String) (se : SymbolExchange) :
    EarningsByDate :=
  match m with
  | [] => [(d, [se])]
  | (k, v) :: rest =>
    if k = d then (k, v ++ [se]) :: rest
    else (k, v) :: setdefault_append rest d se

/-- Dictionary lookup on the association list. -/
def find_group : EarningsByDate → String → Option (List SymbolExchange)
  | [], _ => none
  | (k, v) :: rest, d => if k = d then some v else find_group rest d

/-- The loop of `process_list` (source lines 88-95), with the dictionary
built so far as accumulator. -/
def process_list_from (m : EarningsByDate) : List ResolvedTicker → EarningsByDate
  | [] => m
  | t :: ts =>
      process_list_from (setdefault_append m t.earningsDate ⟨t.symbol, t.exchange⟩) ts

/-- `process_list` (source lines 88-95): group resolved tickers by
earnings date, starting from the empty dictionary. -/
def process_list (formatted_tickers : List ResolvedTicker) : EarningsByDate :=
  process_list_from [] formatted_tickers

theorem find_group_setdefault_append (m : EarningsByDate) (d d' : String)
    (se : SymbolExchange) :
    find_group (setdefault_append m d se) d' =
      if d' = d then some ((find_group m d).getD [] ++ [se])
      else find_group m d' := by
  induction m with
  | nil =>
    by_cases h : d' = d
    · subst h
      simp [setdefault_append, find_group]
    · simp [setdefault_append, find_group, h, Ne.symm h]
  | cons p rest ih =>
    obtain ⟨k, v⟩ := p
    by_cases h1 : k = d
    · subst h1
      by_cases h2 : d' = k
      · subst h2
        simp [setdefault_append, find_group]
      · simp [setdefault_append, find_group, h2, Ne.symm h2]
    · by_cases h2 : d' = k
      · subst h2
        simp [setdefault_append, find_group, h1, Ne.symm h1]
      · simp [setdefault_append, find_group, h1, h2, Ne.symm h2, ih]

theorem find_group_isSome_iff (m : EarningsByDate) (d : String) :
    (find_group m d).isSome = true ↔ d ∈ m.map Prod.fst := by
  induction m with
  | nil => simp [find_group]
  | cons p rest ih =>
    obtain ⟨k, v⟩ := p
    by_cases h : k = d
    · subst h
      simp [find_group]
    · simp [find_group, h, ih, Ne.symm h]

theorem find_group_process_list_from_getD (ts : List ResolvedTicker) :
    ∀ (m : EarningsByDate) (d : String),
    (find_group (process_list_from m ts) d).getD [] =
      (find_group m d).getD [] ++
        (ts.filter (fun t => t.earningsDate = d)).map
          (fun t => ⟨t.symbol, t.exchange⟩) := by
  induction ts with
  | nil => intro m d; simp [process_list_from]
  | cons t ts ih =>
    intro m d
    by_cases h : t.earningsDate = d
    · simp only [process_list_from, List.filter_cons, h]
      rw [ih, find_group_setdefault_append]
      simp [h]
    · simp only [process_list_from, List.filter_cons, h]
      rw [ih, find_group_setdefault_append]
      have : ¬ d = t.earningsDate := fun hc => h hc.symm
      simp [this, h]

theorem find_group_process_list_from_isSome (ts : List ResolvedTicker) :
    ∀ (m : EarningsByDate) (d : String),
    (find_group (process_list_from m ts) d).isSome =
      ((find_group m d).isSome || ts.any (fun t => t.earningsDate = d)) := by
  induction ts with
  | nil => intro m d; simp [process_list_from]
  | cons t ts ih =>
    intro m d
    by_cases h : t.earningsDate = d
    · simp only [process_list_from, List.any_cons, h]
      rw [ih, find_group_setdefault_append]
      simp [h]
    · simp only [process_list_from, List.any_cons, h]
      rw [ih, find_group_setdefault_append]
      have : ¬ d = t.earningsDate := fun hc => h hc.symm
      simp [this, h]

theorem keys_setdefault_append (m : EarningsByDate) (d : String)
    (se : SymbolExchange) :
    (setdefault_append m d se).map Prod.fst =
      if d ∈ m.map Prod.fst then m.map Prod.fst else m.map Prod.fst ++ [d] := by
  induction m with
  | nil => simp [setdefault_append]
  | cons p rest ih =>
    obtain ⟨k, v⟩ := p
    by_cases hk : k = d
    · subst hk
      simp [setdefault_append]
    · by_cases hd : d ∈ rest.map Prod.fst <;>
        simp [setdefault_append, hk, Ne.symm hk, ih, hd]

theorem keys_nodup_setdefault_append (m : EarningsByDate) (d : String)
    (se : SymbolExchange) (h : (m.map Prod.fst).Nodup) :
    ((setdefault_append m d se).map Prod.fst).Nodup := by
  rw [keys_setdefault_append]
  by_cases hd : d ∈ m.map Prod.fst
  · simp [hd, h]
  · simp only [hd, if_false]
    rw [List.nodup_append]
    exact ⟨h, List.nodup_singleton d, by simpa using hd⟩

theorem keys_nodup_process_list_from (ts : List ResolvedTicker) :
    ∀ m : EarningsByDate, (m.map Prod.fst).Nodup →
    ((process_list_from m ts).map Prod.fst).Nodup := by
  induction ts with
  | nil => intro m h; exact h
  | cons t ts ih =>
    intro m h
    exact ih _ (keys_nodup_setdefault_append m _ _ h)

/-- Claim C5: the key set of `process_list`'s output equals the set of
distinct `earningsDate` values of the input; the list under each key holds
exactly the `{symbol, exchange}` pairs of the tickers with that date, in
original relative order, hence is non-empty; and keys are not duplicated. -/
theorem date_grouper_correct (ts : List ResolvedTicker) :
    (∀ d : String,
      d ∈ (process_list ts).map Prod.fst ↔ d ∈ ts.map (fun t => t.earningsDate)) ∧
    (∀ (d : String) (l : List SymbolExchange),
      find_group (process_list ts) d = some l →
        l = (ts.filter (fun t => t.earningsDate = d)).map
              (fun t => ⟨t.symbol, t.exchange⟩) ∧ l ≠ []) ∧
    ((process_list ts).map Prod.fst).Nodup := by
  refine ⟨fun d => ?_, fun d l hl => ?_, ?_⟩
  · rw [← find_group_isSome_iff]
    unfold process_list
    rw [find_group_process_list_from_isSome]
    simp only [find_group, Option.isSome_none, Bool.false_or]
    rw [List.any_eq_true]
    constructor
    · rintro ⟨t, ht, hp⟩
      exact List.mem_map.mpr ⟨t, ht, by simpa using hp⟩
    · rintro hm
      obtain ⟨t, ht, hp⟩ := List.mem_map.mp hm
      exact ⟨t, ht, by simpa using hp⟩
  · have hg : (find_group (process_list ts) d).getD [] =
        (find_group ([] : EarningsByDate) d).getD [] ++
          (ts.filter (fun t => t.earningsDate = d)).map
            (fun t => ⟨t.symbol, t.exchange⟩) :=
      find_group_process_list_from_getD ts [] d
    rw [hl] at hg
    simp only [find_group, Option.getD_some, Option.getD_none, List.nil_append] at hg
    refine ⟨hg, ?_⟩
    have hs : (find_group (process_list_from [] ts) d).isSome = true := by
      rw [show find_group (process_list_from [] ts) d = some l from hl]; rfl
    rw [find_group_process_list_from_isSome] at hs
    simp only [find_group, Option.isSome_none, Bool.false_or, List.any_eq_true] at hs
    obtain ⟨t, ht, hp⟩ := hs
    have hmem : t ∈ ts.filter (fun t => t.earningsDate = d) :=
      List.mem_filter.mpr ⟨ht, hp⟩
    intro hnil
    rw [hg] at hnil
    rw [List.map_eq_nil_iff] at hnil
    rw [hnil] at hmem
    exact List.not_mem_nil t hmem
  · exact keys_nodup_process_list_from ts [] (by simp)

/-- Witness for C5 on a concrete two-ticker input sharing one date. -/
theorem date_grouper_correct_witness :
    ("2024-06-10" ∈ (process_list [⟨"AAPL", "2024-06-10", "NASDAQ"⟩,
        ⟨"JPM", "2024-06-10", "NYSE"⟩]).map Prod.fst) ∧
    ([⟨"AAPL", "NASDAQ"⟩, ⟨"JPM", "NYSE"⟩] =
      (([⟨"AAPL", "2024-06-10", "NASDAQ"⟩, ⟨"JPM", "2024-06-10", "NYSE"⟩] :
          List ResolvedTicker).filter
            (fun t => t.earningsDate = "2024-06-10")).map
        (fun t => (⟨t.symbol, t.exchange⟩ : SymbolExchange)) ∧
      ([⟨"AAPL", "NASDAQ"⟩, ⟨"JPM", "NYSE"⟩] : List SymbolExchange) ≠ []) := by
  have h := date_grouper_correct
    [⟨"AAPL", "2024-06-10", "NASDAQ"⟩, ⟨"JPM", "2024-06-10", "NYSE"⟩]
  refine ⟨(h.1 "2024-06-10").mpr (by decide), ?_⟩
  exact h.2.1 "2024-06-10" [⟨"AAPL", "NASDAQ"⟩, ⟨"JPM", "NYSE"⟩] (by decide)

/-- `format_watchlist` (source lines 97-104): for each `(date, entries)`
pair append `"###<date>, <EX>:<SYM>, ..."` to a list of group strings,
then join the group strings with `", "`. -/
def format_watchlist (earnings_dict : EarningsByDate) : String :=
  let formatted_strings := earnings_dict.foldl
    (fun acc p =>
      let date_string := "###" ++ p.1
      let symbols_string := String.intercalate ", "
        (p.2.map (fun entry => entry.exchange ++ ":" ++ entry.symbol))
      acc ++ [date_string ++ ", " ++ symbols_string]) []
  String.intercalate ", " formatted_strings

theorem foldl_append_singleton_map {α β : Type} (l : List α) (f : α → β) :
    ∀ acc : List β, l.foldl (fun a x => a ++ [f x]) acc = acc ++ l.map f := by
  induction l with
  | nil => intro acc; simp
  | cons x xs ih => intro acc; simp [ih]

/-- Claim C6: `format_watchlist` joins, in insertion order, one
`"###<date>, <EX>:<SYM>, ..."` group per key with `", "`; on the concrete
mapping `{"2024-06-10": [AAPL/NASDAQ, JPM/NYSE]}` it yields exactly
`"###2024-06-10, NASDAQ:AAPL, NYSE:JPM"`, and on the empty mapping the
empty string. -/
theorem watchlist_formatter_correct :
    format_watchlist [("2024-06-10",
        [⟨"AAPL", "NASDAQ"⟩, ⟨"JPM", "NYSE"⟩])] =
      "###2024-06-10, NASDAQ:AAPL, NYSE:JPM" ∧
    format_watchlist [] = "" ∧
    (∀ m : EarningsByDate,
      format_watchlist m = String.intercalate ", "
        (m.map (fun p => "###" ++ p.1 ++ ", " ++ String.intercalate ", "
          (p.2.map (fun entry => entry.exchange ++ ":" ++ entry.symbol))))) := by
  refine ⟨?_, rfl, fun m => ?_⟩
  · rfl
  · unfold format_watchlist
    rw [foldl_append_singleton_map]
    simp

/-- Outcome of `save_watchlist` when it returns normally. -/
inductive SaveOutcome where
  | saved
  | writeError
deriving DecidableEq, Repr

/-- `save_watchlist` (source lines 106-120) as a function of the results
of its two external calls.  `os.makedirs` (line 109) is OUTSIDE the
`try` block, so its failure propagates as an exception (`Except.error`);
the `open`/`write` step is inside `try`, and its `IOError` is caught and
only logged (`Except.ok SaveOutcome.writeError`). -/
def save_watchlist (makedirs_result write_result : Except Unit Unit) :
    Except Unit SaveOutcome :=
  match makedirs_result with
  | Except.error e => Except.error e
  | Except.ok _ =>
    match write_result with
    | Except.error _ => Except.ok SaveOutcome.writeError
    | Except.ok _ => Except.ok SaveOutcome.saved

/-- Claim C8 counterexample: a failure to create the output directory is
NOT caught — `save_watchlist` propagates it as an exception instead of
converting it to a log message, so it reaches the Orchestrator. -/
theorem save_watchlist_makedirs_failure_propagates :
    save_watchlist (Except.error ()) (Except.ok ()) = Except.error () ∧
    (save_watchlist (Except.error ()) (Except.ok ())).isOk = false := by
  exact ⟨rfl, rfl⟩

/-- Claim C8 (amended): fetch failures, per-symbol lookup failures and
file-write failures are each caught where they occur and absorbed
(`get_earnings` and `get_exchange` are total, a write failure yields a
logged `writeError` outcome), but a directory-creation failure in the File
Writer is not caught: it propagates out of `save_watchlist` as an
exception. -/
theorem error_propagation_amended (w : Except Unit Unit) :
    (∀ tr : Except Unit HttpResponse, ∃ l, get_earnings tr = l) ∧
    (∀ (lk : String → LookupResult) (ts : List FilteredTicker),
      ∃ out, get_exchange lk ts = out) ∧
    save_watchlist (Except.ok ()) w ≠ Except.error () ∧
    (w = Except.error () →
      save_watchlist (Except.ok ()) w = Except.ok SaveOutcome.writeError) ∧
    save_watchlist (Except.error ()) w = Except.error () := by
  refine ⟨fun tr => ⟨_, rfl⟩, fun lk ts => ⟨_, rfl⟩, ?_, ?_, rfl⟩
  · cases w <;> simp [save_watchlist]
  · intro h
    subst h
    rfl

/-- Witness for C8 (amended) at a failing write. -/
theorem error_propagation_amended_witness :
    save_watchlist (Except.ok ()) (Except.error ()) =
      Except.ok SaveOutcome.writeError :=
  (error_propagation_amended (Except.error ())).2.2.2.1 rfl

/-- The external-world inputs of one week's processing: the transport
result of the earnings fetch, the per-symbol lookup behaviour, and the
results of the directory-creation and file-write calls. -/
structure WeekEnv where
  transport : Except Unit HttpResponse
  lookup : String → LookupResult
  makedirs_result : Except Unit Unit
  write_result : Except Unit Unit

/-- Observable outcome of one week in `main`'s loop. -/
inductive WeekOutcome where
  | skipped
  | saved (content : String)
  | writeFailed (content : String)
deriving DecidableEq, Repr

/-- The watchlist string a week's pipeline produces from its fetched
data: Cap Filter, Exchange Resolver, Date Grouper, Watchlist Formatter in
sequence (source line 130-132). -/
def week_pipeline (env : WeekEnv) : String :=
  format_watchlist (process_list
    (get_exchange env.lookup (process_json (get_earnings env.transport))))

/-- One iteration of `main`'s loop (source lines 124-133): fetch; if the
result is empty, skip (none of the later stages run); otherwise run the
pipeline and save.  An uncaught exception from `save_watchlist` escapes as
`Except.error`. -/
def run_week (env : WeekEnv) : Except Unit WeekOutcome :=
  let earnings := get_earnings env.transport
  if earnings.isEmpty then Except.ok WeekOutcome.skipped
  else
    match save_watchlist env.makedirs_result env.write_result with
    | Except.error e => Except.error e
    | Except.ok SaveOutcome.saved => Except.ok (WeekOutcome.saved (week_pipeline env))
    | Except.ok SaveOutcome.writeError =>
        Except.ok (WeekOutcome.writeFailed (week_pipeline env))

/-- `main`'s loop over the weeks (source lines 124-133): outcomes of the
completed weeks, plus a flag recording whether an uncaught exception
aborted the loop (in which case the remaining weeks are not processed). -/
def main_loop : List WeekEnv → List WeekOutcome × Bool
  | [] => ([], false)
  | env :: rest =>
    match run_week env with
    | Except.error _ => ([], true)
    | Except.ok o =>
      let r := main_loop rest
      (o :: r.1, r.2)

/-- A week environment whose fetch returns one large-cap record, whose
lookup succeeds with identifier "NYQ", and with the given directory and
write results. -/
def sample_env (mk w : Except Unit Unit) : WeekEnv :=
  { transport := Except.ok ⟨200, [⟨"XOM", "2024-06-11", some 450000000000⟩]⟩,
    lookup := fun _ => Except.ok (some "NYQ"),
    makedirs_result := mk,
    write_result := w }

/-- Claim C9 counterexample: weeks are not independent — changing only
week 1's directory-creation result from success to failure makes week 2
disappear from the outcomes entirely (the loop aborts), so week 1's
processing does affect week 2's. -/
theorem orchestrator_weeks_not_independent :
    main_loop [sample_env (Except.ok ()) (Except.ok ()),
               sample_env (Except.ok ()) (Except.ok ())] =
      ([WeekOutcome.saved "###2024-06-11, NYSE:XOM",
        WeekOutcome.saved "###2024-06-11, NYSE:XOM"], false) ∧
    main_loop [sample_env (Except.error ()) (Except.ok ()),
               sample_env (Except.ok ()) (Except.ok ())] = ([], true) := by
  exact ⟨rfl, rfl⟩

/-- Claim C9 (amended): for each week reached by the loop, an empty fetch
result skips every later stage; a non-empty fetch pipes the data through
Cap Filter, Exchange Resolver, Date Grouper and Watchlist Formatter and
then saves; and as long as a week finishes without an uncaught exception,
the next week's processing is exactly what it would be in isolation —
independence only fails when an earlier week's uncaught
directory-creation failure aborts the loop, dropping the later weeks. -/
theorem orchestrator_amended (e1 e2 : WeekEnv) :
    ((get_earnings e1.transport).isEmpty = true →
      run_week e1 = Except.ok WeekOutcome.skipped) ∧
    ((get_earnings e1.transport).isEmpty = false →
      e1.makedirs_result = Except.ok () → e1.write_result = Except.ok () →
      run_week e1 = Except.ok (WeekOutcome.saved (format_watchlist (process_list
        (get_exchange e1.lookup (process_json (get_earnings e1.transport))))))) ∧
    (∀ o1, run_week e1 = Except.ok o1 →
      main_loop [e1, e2] = (o1 :: (main_loop [e2]).1, (main_loop [e2]).2)) ∧
    (run_week e1 = Except.error () → main_loop [e1, e2] = ([], true)) := by
  refine ⟨fun h => ?_, fun h hmk hw => ?_, fun o1 h => ?_, fun h => ?_⟩
  · simp [run_week, h]
  · simp [run_week, h, hmk, hw, save_watchlist, week_pipeline]
  · simp [main_loop, h]
  · simp [main_loop, h]

/-- Witness for C9 (amended): an empty-fetch week is skipped, a successful
week is saved with the pipeline's output, and with both weeks successful
the loop returns both outcomes. -/
theorem orchestrator_amended_witness :
    run_week { transport := Except.error (), lookup := fun _ => Except.error (),
               makedirs_result := Except.ok (), write_result := Except.ok () } =
      Except.ok WeekOutcome.skipped ∧
    run_week (sample_env (Except.ok ()) (Except.ok ())) =
      Except.ok (WeekOutcome.saved (format_watchlist (process_list
        (get_exchange (sample_env (Except.ok ()) (Except.ok ())).lookup
          (process_json (get_earnings
            (sample_env (Except.ok ()) (Except.ok ())).transport)))))) ∧
    main_loop [sample_env (Except.ok ()) (Except.ok ()),
               sample_env (Except.ok ()) (Except.ok ())] =
      (WeekOutcome.saved "###2024-06-11, NYSE:XOM" ::
        (main_loop [sample_env (Except.ok ()) (Except.ok ())]).1,
       (main_loop [sample_env (Except.ok ()) (Except.ok ())]).2) := by
  refine ⟨?_, ?_, ?_⟩
  · exact (orchestrator_amended
      { transport := Except.error (), lookup := fun _ => Except.error (),
        makedirs_result := Except.ok (), write_result := Except.ok () }
      (sample_env (Except.ok ()) (Except.ok ()))).1 rfl
  · exact (orchestrator_amended (sample_env (Except.ok ()) (Except.ok ()))
      (sample_env (Except.ok ()) (Except.ok ()))).2.1 rfl rfl rfl
  · exact (orchestrator_amended (sample_env (Except.ok ()) (Except.ok ()))
      (sample_env (Except.ok ()) (Except.ok ()))).2.2.1
      (WeekOutcome.saved "###2024-06-11, NYSE:XOM") rfl

/-- A ticker dict as a mutable record: `symbol`, `earningsDate`, and the
`exchange` key, absent (`none`) until line 80 of the source assigns it. -/
structure TickerDict where
  symbol : String
  earningsDate : String
  exchange : Option String
deriving DecidableEq, Repr

/-- A heap of ticker dicts, addressed by reference. -/
def Store : Type := Nat → TickerDict

/-- Overwrite the dict at reference `r`. -/
def store_set (s : Store) (r : Nat) (d : TickerDict) : Store :=
  fun i => if i = r then d else s i

/-- `get_exchange` (source lines 72-86) at the heap level: the input is a
list of references into the store.  On a successful lookup, line 80
(`ticker["exchange"] = exchange`) mutates the referenced dict in place and
line 81 appends THE SAME REFERENCE to `formatted_tickers`; on a raised
lookup the reference is skipped and the store is untouched. -/
def get_exchange_heap (lookup : String → LookupResult) :
    List Nat → Store → List Nat × Store
  | [], s => ([], s)
  | r :: rs, s =>
    match lookup ((s r).symbol) with
    | Except.error _ => get_exchange_heap lookup rs s
    | Except.ok info =>
      let s' := store_set s r { s r with exchange := some (resolve_exchange info) }
      let p := get_exchange_heap lookup rs s'
      (r :: p.1, p.2)

theorem get_exchange_heap_sublist (lookup : String → LookupResult)
    (refs : List Nat) :
    ∀ s : Store, (get_exchange_heap lookup refs s).1.Sublist refs := by
  induction refs with
  | nil => intro s; simp [get_exchange_heap]
  | cons r rs ih =>
    intro s
    cases h : lookup ((s r).symbol) with
    | error e =>
      simp only [get_exchange_heap, h]
      exact (ih s).cons r
    | ok info =>
      simp only [get_exchange_heap, h]
      exact (ih _).cons₂ r

theorem get_exchange_heap_preserves_fields (lookup : String → LookupResult)
    (refs : List Nat) :
    ∀ (s : Store) (i : Nat),
      ((get_exchange_heap lookup refs s).2 i).symbol = (s i).symbol ∧
      ((get_exchange_heap lookup refs s).2 i).earningsDate = (s i).earningsDate := by
  induction refs with
  | nil => intro s i; exact ⟨rfl, rfl⟩
  | cons r rs ih =>
    intro s i
    cases h : lookup ((s r).symbol) with
    | error e =>
      simp only [get_exchange_heap, h]
      exact ih s i
    | ok info =>
      simp only [get_exchange_heap, h]
      have hs := ih (store_set s r { s r with exchange := some (resolve_exchange info) }) i
      by_cases hi : i = r
      · subst hi
        simpa [store_set] using hs
      · simpa [store_set, hi] using hs

theorem get_exchange_heap_preserves_some (lookup : String → LookupResult)
    (refs : List Nat) :
    ∀ (s : Store) (i : Nat), (s i).exchange.isSome = true →
      ((get_exchange_heap lookup refs s).2 i).exchange.isSome = true := by
  induction refs with
  | nil => intro s i h; exact h
  | cons r rs ih =>
    intro s i h
    cases hl : lookup ((s r).symbol) with
    | error e =>
      simp only [get_exchange_heap, hl]
      exact ih s i h
    | ok info =>
      simp only [get_exchange_heap, hl]
      refine ih _ i ?_
      by_cases hi : i = r
      · subst hi
        simp [store_set]
      · simpa [store_set, hi] using h

/-- Claim C10: `get_exchange` mutates its input in place — the output list
is a sublist of the very input references (each resolved ticker is the
same record object), the final store agrees with the initial one on
`symbol` and `earningsDate` at every reference, and every reference in the
output has had an `exchange` field added. -/
theorem exchange_resolver_in_place (lookup : String → LookupResult)
    (refs : List Nat) (s : Store) :
    (get_exchange_heap lookup refs s).1.Sublist refs ∧
    (∀ i : Nat,
      ((get_exchange_heap lookup refs s).2 i).symbol = (s i).symbol ∧
      ((get_exchange_heap lookup refs s).2 i).earningsDate = (s i).earningsDate) ∧
    (∀ r ∈ (get_exchange_heap lookup refs s).1,
      ((get_exchange_heap lookup refs s).2 r).exchange.isSome = true) := by
  refine ⟨get_exchange_heap_sublist lookup refs s,
    fun i => get_exchange_heap_preserves_fields lookup refs s i, ?_⟩
  induction refs generalizing s with
  | nil => intro r hr; simp [get_exchange_heap] at hr
  | cons r' rs ih =>
    intro r hr
    cases hl : lookup ((s r').symbol) with
    | error e =>
      simp only [get_exchange_heap, hl] at hr ⊢
      exact ih s r hr
    | ok info =>
      simp only [get_exchange_heap, hl] at hr ⊢
      rcases List.mem_cons.mp hr with heq | hmem
      · subst heq
        refine get_exchange_heap_preserves_some lookup rs _ r ?_
        simp [store_set]
      · exact ih _ r hmem

/-- Witness for C10: one reference, initially without an `exchange` field,
looked up successfully with identifier "NMS". -/
theorem exchange_resolver_in_place_witness :
    (get_exchange_heap (fun _ => Except.ok (some "NMS")) [0]
      (fun _ => ⟨"AAPL", "2024-06-10", none⟩)).1.Sublist [0] ∧
    ((get_exchange_heap (fun _ => Except.ok (some "NMS")) [0]
      (fun _ => ⟨"AAPL", "2024-06-10", none⟩)).2 0).symbol = "AAPL" ∧
    (0 ∈ (get_exchange_heap (fun _ => Except.ok (some "NMS")) [0]
        (fun _ => ⟨"AAPL", "2024-06-10", none⟩)).1 →
      ((get_exchange_heap (fun _ => Except.ok (some "NMS")) [0]
        (fun _ => ⟨"AAPL", "2024-06-10", none⟩)).2 0).exchange.isSome = true) := by
  have h := exchange_resolver_in_place (fun _ => Except.ok (some "NMS")) [0]
    (fun _ => ⟨"AAPL", "2024-06-10", none⟩)
  exact ⟨h.1, (h.2.1 0).1, fun hm => h.2.2 0 hm⟩

end EarningsWatchlist
